import Mathlib

/-!
Shallow embedding of the WAVM runtime Table subsystem (src/Lib/Runtime/Table.cpp).

References are modelled as an inductive `Object`; the two process-global dummy
functions (`getOutOfBoundsElement`, `getUninitializedElement`) are distinguished
constructors.  The element store holds decoded objects: the biased-word encoding
(`stored word = reference pointer - OUT_OF_BOUNDS pointer`) is modelled
separately at the word level (`objectToBiasedTableElementValue`), and since that
encoding is a bijection on addresses, a slot whose raw word is zero is exactly a
slot whose decoded object is the out-of-bounds sentinel.  Exceptions thrown with
`throwException` become an `Except Exn` result; stateful operations return the
table state alongside the result so that partial mutation before a throw is
observable.  Machine integers (Uptr/U64) are Nat with explicit `% 2 ^ 64` where
the source's wraparound matters.
-/

/-- A runtime object reference: the two sentinel dummy functions, or a real
function identified by an index. -/
inductive Object where
  | outOfBounds
  | uninitialized
  | func (index : Nat)
deriving DecidableEq

/-- Exception kinds thrown by the table code (ExceptionTypes in the source),
with the payloads the source attaches (table identity elided, indices kept). -/
inductive Exn where
  | outOfBoundsTableAccess (index : Nat)
  | uninitializedTableElement (index : Nat)
  | indirectCallSignatureMismatch
  | invalidArgument
  | outOfBoundsElemSegmentAccess (elemSegmentIndex sourceIndex : Nat)
deriving DecidableEq

/-- An element segment entry (IR::Elem): a null marker or a function index into
the owning module instance's function index space. -/
inductive Elem where
  | ref_null
  | ref_func (index : Nat)
deriving DecidableEq

/-- Uptr on a 64-bit host: arithmetic wraps modulo 2^64. -/
def uptrSize : Nat := 2 ^ 64

/-- Modelled from the spec: the platform page size (Platform::getPageSizeLog2 is
not in src/); 4 KiB pages.  No claim depends on the concrete value. -/
def pageSizeLog2 : Nat := 12

/-- sizeof(Table::Element) on a 64-bit host: one atomic Uptr word. -/
def sizeofElement : Nat := 8

/-- Modelled from the spec: IR::maxTableElems (IMPL_MAX), the implementation
wide table element limit (IR/Types.h is not in src/); 2^32 elements. -/
def maxTableElems : Nat := 2 ^ 32

/-- numGuardPages enum from Table.cpp. -/
def numGuardPages : Nat := 1

/-- getNumPlatformPages from Table.cpp: bytes rounded up to whole pages. -/
def getNumPlatformPages (numBytes : Nat) : Nat :=
  (numBytes + (1 <<< pageSizeLog2) - 1) >>> pageSizeLog2

/-- The process-global out-of-bounds sentinel (Runtime::getOutOfBoundsElement). -/
def getOutOfBoundsElement : Object := Object.outOfBounds

/-- The process-global uninitialized sentinel (getUninitializedElement). -/
def getUninitializedElement : Object := Object.uninitialized

/-- IR::SizeConstraints: {min, max} bounds in elements. -/
structure SizeConstraints where
  min : Nat
  max : Nat
deriving DecidableEq

/-- IR::TableType, reduced to the size bounds the table code reads. -/
structure TableType where
  size : SizeConstraints
deriving DecidableEq

/-- Modelled from the spec: the resource quota's tableElems sub-quota
(ResourceQuota is not in src/): it accounts element-count allocations, denying
an allocation that would exceed its maximum and refunding on free. -/
structure ResourceQuota where
  used : Nat
  max : Nat
deriving DecidableEq

/-- The table state: decoded element store over the whole reservation, current
element count, reserved element count and bytes, and the optional quota. -/
structure Table where
  type : TableType
  elements : Nat → Object
  numElements : Nat
  numReservedElements : Nat
  numReservedBytes : Nat
  resourceQuota : Option ResourceQuota

/-- Modelled from the spec: quota allocate fails iff charging n more elements
would exceed the quota maximum; absent quota never fails. -/
def quotaAllocateFails (q : Option ResourceQuota) (n : Nat) : Bool :=
  match q with
  | none => false
  | some q => decide (q.max < q.used + n)

/-- Modelled from the spec: the quota state after a successful charge of n. -/
def quotaAllocate (q : Option ResourceQuota) (n : Nat) : Option ResourceQuota :=
  match q with
  | none => none
  | some q => some { q with used := q.used + n }

/-- Modelled from the spec: quota free refunds n elements. -/
def quotaFree (q : Option ResourceQuota) (n : Nat) : Option ResourceQuota :=
  match q with
  | none => none
  | some q => some { q with used := q.used - n }

/-- setTableElementNonNull from Table.cpp: bounds check against the reserved
element count, saturated index, throw before the compare-and-swap when the
current slot decodes to the out-of-bounds sentinel, else store and return the
previous object.  The sequential model resolves the CAS retry loop to a single
load-check-store. -/
def setTableElementNonNull (table : Table) (index : Nat) (object : Object) :
    Except Exn Object × Table :=
  if index ≥ table.numReservedElements then
    (Except.error (Exn.outOfBoundsTableAccess index), table)
  else
    let saturatedIndex := min index (table.numReservedElements - 1)
    let oldValue := table.elements saturatedIndex
    if oldValue = getOutOfBoundsElement then
      (Except.error (Exn.outOfBoundsTableAccess index), table)
    else
      (Except.ok oldValue,
       { table with
          elements := fun k => if k = saturatedIndex then object else table.elements k })

/-- getTableElementNonNull from Table.cpp: bounds check against the reserved
element count, saturated acquire load, throw when the slot decodes to the
out-of-bounds sentinel. -/
def getTableElementNonNull (table : Table) (index : Nat) : Except Exn Object :=
  if index ≥ table.numReservedElements then
    Except.error (Exn.outOfBoundsTableAccess index)
  else
    let saturatedIndex := min index (table.numReservedElements - 1)
    let object := table.elements saturatedIndex
    if object = getOutOfBoundsElement then
      Except.error (Exn.outOfBoundsTableAccess index)
    else
      Except.ok object

/-- Runtime::setTableElement: substitute the uninitialized sentinel for a null
new value, write, and translate an uninitialized previous value back to null. -/
def setTableElement (table : Table) (index : Nat) (newValue : Option Object) :
    Except Exn (Option Object) × Table :=
  let newValue' := match newValue with
    | none => getUninitializedElement
    | some v => v
  match setTableElementNonNull table index newValue' with
  | (Except.error e, t) => (Except.error e, t)
  | (Except.ok oldObject, t) =>
    (Except.ok (if oldObject = getUninitializedElement then none else some oldObject), t)

/-- Runtime::getTableElement: read and translate the uninitialized sentinel to
null. -/
def getTableElement (table : Table) (index : Nat) : Except Exn (Option Object) :=
  match getTableElementNonNull table index with
  | Except.error e => Except.error e
  | Except.ok object =>
    Except.ok (if object = getUninitializedElement then none else some object)

/-- Runtime::getTableNumElements: the current element count. -/
def getTableNumElements (table : Table) : Nat := table.numElements

/-- Invariant I2 of the spec, at the decoded level: every slot at or beyond the
current element count (within the reservation) holds the out-of-bounds
sentinel, i.e. its raw biased word is zero. -/
def InvariantI2 (t : Table) : Prop :=
  ∀ i, i < t.numReservedElements → t.numElements ≤ i →
    t.elements i = getOutOfBoundsElement

/-- Invariant I1 of the spec, reduced to what the proofs need: every slot below
the current element count decodes to something other than the out-of-bounds
sentinel. -/
def InvariantI1 (t : Table) : Prop :=
  ∀ i, i < t.numElements → t.elements i ≠ getOutOfBoundsElement

/-- The initialization loop inside growTableImpl: release-store the biased fill
value into every new slot, ascending from the old count up to the new count.
The loop is driven by the count of remaining slots; the element index written
in a step with remaining = r + 1 is newNumElements - (r + 1). -/
def growInitLoop (initElement : Object) (newNumElements : Nat) :
    Nat → (Nat → Object) → (Nat → Object)
  | 0, elements => elements
  | Nat.succ remaining, elements =>
    let elementIndex := newNumElements - Nat.succ remaining
    growInitLoop initElement newNumElements remaining
      (fun k => if k = elementIndex then initElement else elements k)

/-- The outcome of growTableImpl: the returned bool, the value stored through
outOldNumElements (meaningful only on success), and the table state. -/
structure GrowResult where
  ok : Bool
  oldNumElements : Nat
  table : Table

/-- growTableImpl from Table.cpp.  commitOk models whether
Platform::commitVirtualPages succeeds when it is called.  Failure paths refund
the quota exactly as the source does; the new count is stored last. -/
def growTableImpl (commitOk : Bool) (table : Table) (numElementsToGrow : Nat)
    (initializeNewElements : Bool)
    (initializeToElement : Object := getUninitializedElement) : GrowResult :=
  if numElementsToGrow = 0 then
    { ok := true, oldNumElements := table.numElements, table := table }
  else if quotaAllocateFails table.resourceQuota numElementsToGrow then
    { ok := false, oldNumElements := 0, table := table }
  else
    let table1 : Table :=
      { table with resourceQuota := quotaAllocate table.resourceQuota numElementsToGrow }
    let oldNumElements := table1.numElements
    if numElementsToGrow > table1.type.size.max
        ∨ oldNumElements > table1.type.size.max - numElementsToGrow
        ∨ numElementsToGrow > maxTableElems
        ∨ oldNumElements > maxTableElems - numElementsToGrow then
      { ok := false, oldNumElements := 0,
        table := { table1 with
          resourceQuota := quotaFree table1.resourceQuota numElementsToGrow } }
    else
      let newNumElements := oldNumElements + numElementsToGrow
      let previousNumPlatformPages := getNumPlatformPages (oldNumElements * sizeofElement)
      let newNumPlatformPages := getNumPlatformPages (newNumElements * sizeofElement)
      if newNumPlatformPages ≠ previousNumPlatformPages ∧ commitOk = false then
        { ok := false, oldNumElements := 0,
          table := { table1 with
            resourceQuota := quotaFree table1.resourceQuota numElementsToGrow } }
      else
        let table2 : Table :=
          if initializeNewElements then
            { table1 with
              elements := growInitLoop initializeToElement newNumElements
                (newNumElements - oldNumElements) table1.elements }
          else table1
        { ok := true, oldNumElements := oldNumElements,
          table := { table2 with numElements := newNumElements } }

/-- Runtime::growTable: growTableImpl with initialization enabled. -/
def growTable (commitOk : Bool) (table : Table) (numElementsToGrow : Nat)
    (initialElement : Object) : GrowResult :=
  growTableImpl commitOk table numElementsToGrow true initialElement

/-- Two's-complement interpretation of a Nat as a signed 32-bit integer: the
I32 return value of the table.grow intrinsic. -/
def toI32 (n : Nat) : Int :=
  if n % 2 ^ 32 < 2 ^ 31 then Int.ofNat (n % 2 ^ 32)
  else Int.ofNat (n % 2 ^ 32) - 2 ^ 32

/-- The table.grow intrinsic from Table.cpp: substitute the uninitialized
sentinel for a null initial value, grow, return -1 on failure and the old
element count (as an I32) on success. -/
def table_grow (commitOk : Bool) (table : Table) (initialValue : Option Object)
    (deltaNumElements : Nat) : Int × Table :=
  let initialValue' := match initialValue with
    | none => getUninitializedElement
    | some v => v
  let r := growTable commitOk table deltaNumElements initialValue'
  if r.ok then (toI32 r.oldNumElements, r.table) else (-1, r.table)

/-- The write loop of the table.fill intrinsic, ascending; the index written in
a step with remaining = r + 1 is numElements - (r + 1). -/
def tableFillLoop (destOffset : Nat) (value : Object) (numElements : Nat) :
    Nat → Table → Except Exn Unit × Table
  | 0, t => (Except.ok (), t)
  | Nat.succ remaining, t =>
    let index := numElements - Nat.succ remaining
    match setTableElementNonNull t (destOffset + index) value with
    | (Except.error e, u) => (Except.error e, u)
    | (Except.ok _, u) => tableFillLoop destOffset value numElements remaining u

/-- The table.fill intrinsic from Table.cpp: null-to-uninitialized substitution
followed by numElements checked writes of the same value. -/
def table_fill (t : Table) (destOffset : Nat) (value : Option Object)
    (numElements : Nat) : Except Exn Unit × Table :=
  let value' := match value with
    | none => getUninitializedElement
    | some v => v
  tableFillLoop destOffset value' numElements numElements t

/-- The descending branch of the table.copy intrinsic on a single (aliased)
table: the element moved in a step with remaining = r + 1 is at offset r, so
offsets run from numElements - 1 down to 0, each step a checked get then a
checked set. -/
def tableCopyDescLoop (destOffset sourceOffset : Nat) :
    Nat → Table → Except Exn Unit × Table
  | 0, t => (Except.ok (), t)
  | Nat.succ remaining, t =>
    match getTableElementNonNull t (sourceOffset + remaining) with
    | Except.error e => (Except.error e, t)
    | Except.ok object =>
      match setTableElementNonNull t (destOffset + remaining) object with
      | (Except.error e, u) => (Except.error e, u)
      | (Except.ok _, u) => tableCopyDescLoop destOffset sourceOffset remaining u

/-- The ascending branch of the table.copy intrinsic on a single (aliased)
table: the element moved in a step with remaining = r + 1 is at offset
numElements - (r + 1), so offsets run from 0 up to numElements - 1. -/
def tableCopyAscLoop (destOffset sourceOffset numElements : Nat) :
    Nat → Table → Except Exn Unit × Table
  | 0, t => (Except.ok (), t)
  | Nat.succ remaining, t =>
    let index := numElements - Nat.succ remaining
    match getTableElementNonNull t (sourceOffset + index) with
    | Except.error e => (Except.error e, t)
    | Except.ok object =>
      match setTableElementNonNull t (destOffset + index) object with
      | (Except.error e, u) => (Except.error e, u)
      | (Except.ok _, u) => tableCopyAscLoop destOffset sourceOffset numElements remaining u

/-- The table.copy intrinsic from Table.cpp, for the aliased case where the
source and destination ids resolve to the same table: when copying to higher
indices (sourceOffset < destOffset) iterate descending, else ascending. -/
def table_copy (t : Table) (destOffset sourceOffset numElements : Nat) :
    Except Exn Unit × Table :=
  if sourceOffset < destOffset then
    tableCopyDescLoop destOffset sourceOffset numElements t
  else
    tableCopyAscLoop destOffset sourceOffset numElements numElements t

/-- The loop of Runtime::initElemSegment: per iteration, compute the (wrapping)
source and destination indices, throw out-of-bounds-segment when the source
index is past the segment or has wrapped below the source offset, decode the
segment entry against the module's function index space, and perform a checked
write.  The index processed in a step with remaining = r + 1 is
numElems - (r + 1). -/
def initElemSegmentLoop (functions : Nat → Object) (elemVector : List Elem)
    (elemSegmentIndex destOffset sourceOffset numElems : Nat) :
    Nat → Table → Except Exn Unit × Table
  | 0, t => (Except.ok (), t)
  | Nat.succ remaining, t =>
    let index := numElems - Nat.succ remaining
    let sourceIndex := (sourceOffset + index) % uptrSize
    let destIndex := (destOffset + index) % uptrSize
    if sourceIndex ≥ elemVector.length ∨ sourceIndex < sourceOffset then
      (Except.error (Exn.outOfBoundsElemSegmentAccess elemSegmentIndex sourceIndex), t)
    else
      let elemObject : Option Object :=
        match elemVector.getD sourceIndex Elem.ref_null with
        | Elem.ref_null => none
        | Elem.ref_func fidx => some (functions fidx)
      match setTableElement t destIndex elemObject with
      | (Except.error e, u) => (Except.error e, u)
      | (Except.ok _, u) =>
        initElemSegmentLoop functions elemVector elemSegmentIndex destOffset
          sourceOffset numElems remaining u

/-- Runtime::initElemSegment from Table.cpp. -/
def initElemSegment (functions : Nat → Object) (elemVector : List Elem)
    (elemSegmentIndex : Nat) (t : Table) (destOffset sourceOffset numElems : Nat) :
    Except Exn Unit × Table :=
  initElemSegmentLoop functions elemVector elemSegmentIndex destOffset sourceOffset
    numElems numElems t

/-- The biased slot encoding (objectToBiasedTableElementValue): the stored word
is the object's address minus the out-of-bounds sentinel's address, in
wrapping Uptr arithmetic over an address assignment addrOf. -/
def objectToBiasedTableElementValue (addrOf : Object → Nat) (object : Object) : Nat :=
  (addrOf object % uptrSize + (uptrSize - addrOf Object.outOfBounds % uptrSize)) % uptrSize

/-- The inverse decoding (biasedTableElementValueToObject), at the address
level: add the out-of-bounds sentinel's address back, wrapping. -/
def biasedTableElementValueToObjectAddr (addrOf : Object → Nat) (biasedValue : Nat) : Nat :=
  (biasedValue + addrOf Object.outOfBounds) % uptrSize

/-- createTableImpl from Table.cpp, parametrized by the host pointer width in
bits.  The source computes the reservation size as Uptr(1) << 32 regardless of
the host width; a shift by 32 in a 32-bit Uptr is undefined in C++ and is
modelled here with wraparound semantics (value mod 2^uptrBits).  Returns the
fresh table (zero elements, all reserved slots decoding to the out-of-bounds
sentinel, exactly as a zero-filled reservation does) and the number of virtual
pages allocated, which includes the trailing guard pages. -/
def createTableImpl (uptrBits : Nat) (type : TableType)
    (resourceQuota : Option ResourceQuota) : Table × Nat :=
  let elementSize := uptrBits / 8
  let tableMaxElements := (1 <<< 32) % 2 ^ uptrBits
  let tableMaxBytes := elementSize * tableMaxElements
  let tableMaxPages := tableMaxBytes >>> pageSizeLog2
  ({ type := type
     elements := fun _ => getOutOfBoundsElement
     numElements := 0
     numReservedElements := tableMaxElements
     numReservedBytes := tableMaxBytes
     resourceQuota := resourceQuota },
   tableMaxPages + numGuardPages)

/-- A registry entry for Runtime::isAddressOwnedByTable: a table's reservation
base address and its numReservedBytes. -/
structure TableRecord where
  base : Nat
  numReservedBytes : Nat
deriving DecidableEq

/-- Runtime::isAddressOwnedByTable: linear scan of the global table list; a
table owns an address iff the address lies in
[elements, elements + numReservedBytes); on a hit, return the table and the
element index (address - start) / sizeof(Table::Element). -/
def isAddressOwnedByTable (tables : List TableRecord) (address : Nat) :
    Option (TableRecord × Nat) :=
  match tables with
  | [] => none
  | table :: rest =>
    if table.base ≤ address ∧ address < table.base + table.numReservedBytes then
      some (table, (address - table.base) / sizeofElement)
    else
      isAddressOwnedByTable rest address

/-- Decoded value a table.init write stores: the uninitialized sentinel for a
null entry, the resolved function for a function entry. -/
def elemObjectValue (functions : Nat → Object) (e : Elem) : Object :=
  match e with
  | Elem.ref_null => getUninitializedElement
  | Elem.ref_func j => functions j

/-- Sample table for the copy scenario: size 4 holding [A,B,C,D] as
[func 0, func 1, func 2, func 3]. -/
def tabC5 : Table :=
  { type := { size := { min := 4, max := 4 } }
    elements := fun k => if k < 4 then Object.func k else Object.outOfBounds
    numElements := 4
    numReservedElements := 4
    numReservedBytes := 32
    resourceQuota := none }

/-- Sample table with two live slots (size 2) inside a 4-element reservation;
slots 2 and 3 hold the zero word, decoding to the out-of-bounds sentinel. -/
def tabSmall : Table :=
  { type := { size := { min := 2, max := 4 } }
    elements := fun k => if k < 2 then Object.func k else Object.outOfBounds
    numElements := 2
    numReservedElements := 4
    numReservedBytes := 32
    resourceQuota := none }

/-- Sample table for grow-failure scenarios: size 2 at its type maximum 2, with
a quota attached. -/
def tabAtMax : Table :=
  { type := { size := { min := 2, max := 2 } }
    elements := fun k => if k < 2 then Object.func k else Object.outOfBounds
    numElements := 2
    numReservedElements := 4
    numReservedBytes := 32
    resourceQuota := some { used := 2, max := 10 } }

/-- Sample table with a full-size reservation, as createTableImpl builds it on
a 64-bit host. -/
def tabFresh : Table :=
  { type := { size := { min := 0, max := 10 } }
    elements := fun _ => Object.outOfBounds
    numElements := 0
    numReservedElements := 2 ^ 32
    numReservedBytes := 2 ^ 35
    resourceQuota := none }

theorem quotaFree_quotaAllocate (q : Option ResourceQuota) (n : Nat) :
    quotaFree (quotaAllocate q n) n = q := by
  cases q with
  | none => rfl
  | some q => simp [quotaAllocate, quotaFree]

theorem getTableElementNonNull_ok (t : Table) (i : Nat)
    (h1 : i < t.numReservedElements) (h2 : t.elements i ≠ getOutOfBoundsElement) :
    getTableElementNonNull t i = Except.ok (t.elements i) := by
  unfold getTableElementNonNull
  rw [if_neg (by omega), Nat.min_eq_left (by omega), if_neg h2]

theorem setTableElementNonNull_ok (t : Table) (i : Nat) (v : Object)
    (h1 : i < t.numReservedElements) (h2 : t.elements i ≠ getOutOfBoundsElement) :
    setTableElementNonNull t i v =
      (Except.ok (t.elements i),
       { t with elements := fun k => if k = i then v else t.elements k }) := by
  unfold setTableElementNonNull
  rw [if_neg (by omega), Nat.min_eq_left (by omega)]
  simp only [if_neg h2]

theorem setTableElementNonNull_dead_slot (t : Table) (i : Nat) (v : Object)
    (h1 : i < t.numReservedElements) (h2 : t.elements i = getOutOfBoundsElement) :
    setTableElementNonNull t i v = (Except.error (Exn.outOfBoundsTableAccess i), t) := by
  unfold setTableElementNonNull
  rw [if_neg (by omega), Nat.min_eq_left (by omega), if_pos h2]

theorem setTableElement_ok (t : Table) (i : Nat) (v : Option Object)
    (h1 : i < t.numReservedElements) (h2 : t.elements i ≠ getOutOfBoundsElement) :
    setTableElement t i v =
      (Except.ok (if t.elements i = getUninitializedElement then none else some (t.elements i)),
       { t with elements := fun k =>
          if k = i then (match v with
            | none => getUninitializedElement
            | some x => x) else t.elements k }) := by
  unfold setTableElement
  cases v with
  | none =>
    show (match setTableElementNonNull t i getUninitializedElement with
      | (Except.error e, t) => (Except.error e, t)
      | (Except.ok oldObject, t) =>
        (Except.ok (if oldObject = getUninitializedElement then none else some oldObject), t)) = _
    rw [setTableElementNonNull_ok t i getUninitializedElement h1 h2]
  | some x =>
    show (match setTableElementNonNull t i x with
      | (Except.error e, t) => (Except.error e, t)
      | (Except.ok oldObject, t) =>
        (Except.ok (if oldObject = getUninitializedElement then none else some oldObject), t)) = _
    rw [setTableElementNonNull_ok t i x h1 h2]

/-- C1: for every table satisfying invariant I2 and every index at or beyond
the current element count, get raises OutOfBoundsTableAccess: either the index
fails the explicit bounds check against the reserved count, or the slot's zero
word decodes to the out-of-bounds sentinel. -/
theorem getTableElement_raises_out_of_bounds (t : Table) (i : Nat)
    (hI2 : InvariantI2 t) (hi : t.numElements ≤ i) :
    getTableElement t i = Except.error (Exn.outOfBoundsTableAccess i) := by
  unfold getTableElement getTableElementNonNull
  by_cases hres : i ≥ t.numReservedElements
  · rw [if_pos hres]
  · rw [if_neg hres, Nat.min_eq_left (by omega), if_pos (hI2 i (by omega) hi)]

/-- Witness for C1: on the sample table of size 2 inside a 4-element
reservation, reading indices 2 (dead slot) and 4 (past the reservation) both
raise OutOfBoundsTableAccess. -/
theorem getTableElement_raises_out_of_bounds_witness :
    getTableElement tabSmall 2 = Except.error (Exn.outOfBoundsTableAccess 2)
    ∧ getTableElement tabSmall 4 = Except.error (Exn.outOfBoundsTableAccess 4) :=
  ⟨getTableElement_raises_out_of_bounds tabSmall 2
      (by unfold InvariantI2 tabSmall; decide) (by decide),
   getTableElement_raises_out_of_bounds tabSmall 4
      (by unfold InvariantI2 tabSmall; decide) (by decide)⟩

/-- C7: the biased slot encoding subtracts the out-of-bounds sentinel's
address in wrapping Uptr arithmetic, so decoding inverts encoding on every
reference address, the sentinel itself encodes to the zero word, and the zero
word decodes back to the sentinel's address. -/
theorem biased_encoding_spec (addrOf : Object → Nat) (r : Object)
    (hr : addrOf r < uptrSize) (hoob : addrOf Object.outOfBounds < uptrSize) :
    biasedTableElementValueToObjectAddr addrOf (objectToBiasedTableElementValue addrOf r)
        = addrOf r
    ∧ objectToBiasedTableElementValue addrOf Object.outOfBounds = 0
    ∧ biasedTableElementValueToObjectAddr addrOf 0 = addrOf Object.outOfBounds := by
  unfold biasedTableElementValueToObjectAddr objectToBiasedTableElementValue uptrSize at *
  norm_num only at *
  refine ⟨?_, ?_, ?_⟩ <;> omega

/-- Witness for C7: a concrete address assignment (sentinel at 4096, a real
function at 8216) round-trips through the biased encoding. -/
theorem biased_encoding_spec_witness :
    biasedTableElementValueToObjectAddr
        (fun o => match o with
          | Object.outOfBounds => 4096
          | Object.uninitialized => 4160
          | Object.func n => 8192 + 8 * n)
        (objectToBiasedTableElementValue
          (fun o => match o with
            | Object.outOfBounds => 4096
            | Object.uninitialized => 4160
            | Object.func n => 8192 + 8 * n)
          (Object.func 3)) = 8216
    ∧ objectToBiasedTableElementValue
        (fun o => match o with
          | Object.outOfBounds => 4096
          | Object.uninitialized => 4160
          | Object.func n => 8192 + 8 * n) Object.outOfBounds = 0 := by
  have h := biased_encoding_spec
    (fun o => match o with
      | Object.outOfBounds => 4096
      | Object.uninitialized => 4160
      | Object.func n => 8192 + 8 * n)
    (Object.func 3) (by unfold uptrSize; norm_num) (by unfold uptrSize; norm_num)
  exact ⟨h.1, h.2.1⟩

theorem growInitLoop_untouched (v : Object) (new : Nat) :
    ∀ remaining elements k, remaining ≤ new → (k < new - remaining ∨ new ≤ k) →
      growInitLoop v new remaining elements k = elements k := by
  intro remaining
  induction remaining with
  | zero => intro elements k _ _; rfl
  | succ r ih =>
    intro elements k hle hk
    show growInitLoop v new r _ k = _
    rw [ih _ k (by omega) (by omega)]
    have hne : k ≠ new - (r + 1) := by omega
    simp [hne]

theorem growInitLoop_written (v : Object) (new : Nat) :
    ∀ remaining elements k, remaining ≤ new → new - remaining ≤ k → k < new →
      growInitLoop v new remaining elements k = v := by
  intro remaining
  induction remaining with
  | zero => intro elements k h1 h2 h3; omega
  | succ r ih =>
    intro elements k hle hk1 hk2
    show growInitLoop v new r _ k = _
    by_cases hk : k = new - (r + 1)
    · rw [growInitLoop_untouched v new r _ k (by omega) (by omega)]
      simp [hk]
    · exact ih _ k (by omega) (by omega) hk2

theorem growTableImpl_fail_eq (commitOk : Bool) (t : Table) (n : Nat)
    (init : Bool) (fill : Object)
    (h : (growTableImpl commitOk t n init fill).ok = false) :
    (growTableImpl commitOk t n init fill).table = t := by
  simp only [growTableImpl] at h ⊢
  split_ifs at h ⊢ <;>
    first
      | rfl
      | (rw [quotaFree_quotaAllocate])

theorem growTableImpl_ok_spec (commitOk : Bool) (t : Table) (n : Nat)
    (init : Bool) (fill : Object)
    (h : (growTableImpl commitOk t n init fill).ok = true) :
    (growTableImpl commitOk t n init fill).oldNumElements = t.numElements
    ∧ (growTableImpl commitOk t n init fill).table.numElements = t.numElements + n
    ∧ (growTableImpl commitOk t n init fill).table.numReservedElements
        = t.numReservedElements
    ∧ (growTableImpl commitOk t n init fill).table.type = t.type
    ∧ (∀ k, k < t.numElements →
        (growTableImpl commitOk t n init fill).table.elements k = t.elements k)
    ∧ (∀ k, t.numElements + n ≤ k →
        (growTableImpl commitOk t n init fill).table.elements k = t.elements k)
    ∧ (init = true → ∀ k, t.numElements ≤ k → k < t.numElements + n →
        (growTableImpl commitOk t n init fill).table.elements k = fill)
    ∧ (n ≠ 0 → t.numElements + n ≤ maxTableElems) := by
  simp only [growTableImpl] at h ⊢
  split_ifs at h ⊢ with h0 h1 h2 h3 h4
  · subst h0
    refine ⟨rfl, show t.numElements = t.numElements + 0 by omega, rfl, rfl,
      fun k _ => rfl, fun k _ => rfl, ?_, by omega⟩
    intro _ k hk1 hk2
    omega
  · -- limit checks passed, pages needed no commit or commit succeeded, init on
    refine ⟨rfl, rfl, rfl, rfl, ?_, ?_, ?_, ?_⟩
    · intro k hk
      exact growInitLoop_untouched fill (t.numElements + n) _ t.elements k
        (by omega) (by omega)
    · intro k hk
      exact growInitLoop_untouched fill (t.numElements + n) _ t.elements k
        (by omega) (by omega)
    · intro _ k hk1 hk2
      exact growInitLoop_written fill (t.numElements + n) _ t.elements k
        (by omega) (by omega) hk2
    · intro _
      omega
  · -- init off
    refine ⟨rfl, rfl, rfl, rfl, fun k _ => rfl, fun k _ => rfl, ?_, ?_⟩
    · intro hinit
      exact absurd hinit (by simpa using h4)
    · intro _
      omega

/-- C2: whenever growTableImpl fails -- quota denial, a delta or total beyond
the type maximum or the implementation maximum, or page-commit failure -- the
table after the call (element count, every slot, and net quota consumption) is
exactly the table before the call. -/
theorem grow_fail_leaves_state_unchanged (commitOk : Bool) (t : Table)
    (delta : Nat) (init : Bool) (fill : Object)
    (h : (growTableImpl commitOk t delta init fill).ok = false) :
    (growTableImpl commitOk t delta init fill).table = t :=
  growTableImpl_fail_eq commitOk t delta init fill h

/-- Witness for C2: a grow past the type maximum (quota charged then refunded)
and a grow whose page commit fails both leave their concrete tables exactly
unchanged. -/
theorem grow_fail_leaves_state_unchanged_witness :
    (growTableImpl true tabAtMax 3 true getUninitializedElement).table = tabAtMax
    ∧ (growTableImpl false tabFresh 1 true getUninitializedElement).table = tabFresh :=
  ⟨grow_fail_leaves_state_unchanged true tabAtMax 3 true getUninitializedElement (by rfl),
   grow_fail_leaves_state_unchanged false tabFresh 1 true getUninitializedElement (by rfl)⟩

/-- C3: for a table whose reservation has the full created size, every
successful grow with the default fill (the uninitialized sentinel) raises the
element count by exactly delta, makes every new slot read as null, and leaves
every old slot's stored reference unchanged. -/
theorem grow_success_spec (commitOk : Bool) (t : Table) (delta : Nat)
    (hres : t.numReservedElements = maxTableElems)
    (h : (growTableImpl commitOk t delta true getUninitializedElement).ok = true) :
    (growTableImpl commitOk t delta true getUninitializedElement).table.numElements
        = t.numElements + delta
    ∧ (∀ j, t.numElements ≤ j → j < t.numElements + delta →
        getTableElement
          (growTableImpl commitOk t delta true getUninitializedElement).table j
          = Except.ok none)
    ∧ (∀ j, j < t.numElements →
        (growTableImpl commitOk t delta true getUninitializedElement).table.elements j
          = t.elements j) := by
  obtain ⟨hold, hnum, hresv, htype, hlow, hhigh, hfill, hmax⟩ :=
    growTableImpl_ok_spec commitOk t delta true getUninitializedElement h
  refine ⟨hnum, ?_, hlow⟩
  intro j hj1 hj2
  have hδ : delta ≠ 0 := by omega
  have hjres :
      j < (growTableImpl commitOk t delta true getUninitializedElement).table.numReservedElements := by
    rw [hresv, hres]
    have := hmax hδ
    omega
  have hslot :
      (growTableImpl commitOk t delta true getUninitializedElement).table.elements j
        = getUninitializedElement := hfill rfl j hj1 hj2
  unfold getTableElement
  rw [getTableElementNonNull_ok _ j hjres (by rw [hslot]; decide), hslot]
  simp

/-- Witness for C3: growing the fresh full-reservation table by 2 yields
element count 2, and the new slot 1 reads as null. -/
theorem grow_success_spec_witness :
    (growTableImpl true tabFresh 2 true getUninitializedElement).table.numElements
        = tabFresh.numElements + 2
    ∧ getTableElement
        (growTableImpl true tabFresh 2 true getUninitializedElement).table 1
        = Except.ok none := by
  have h := grow_success_spec true tabFresh 2 (by rfl) (by rfl)
  exact ⟨h.1, h.2.1 1 (by decide) (by decide)⟩

/-- C10: the table.grow intrinsic returns -1 exactly when the underlying grow
fails, returns the pre-growth element count as a 32-bit integer on success,
and substitutes the uninitialized sentinel for a null fill reference before
growing. -/
theorem table_grow_intrinsic_spec (commitOk : Bool) (t : Table)
    (v : Option Object) (delta : Nat) :
    ((growTable commitOk t delta (match v with
        | none => getUninitializedElement
        | some x => x)).ok = false →
      (table_grow commitOk t v delta).1 = -1)
    ∧ ((growTable commitOk t delta (match v with
        | none => getUninitializedElement
        | some x => x)).ok = true →
      (table_grow commitOk t v delta).1 = toI32 t.numElements)
    ∧ table_grow commitOk t none delta
        = table_grow commitOk t (some getUninitializedElement) delta := by
  refine ⟨?_, ?_, rfl⟩
  · intro h
    simp [table_grow, h]
  · intro h
    simp only [table_grow, h, if_true]
    unfold growTable at h ⊢
    rw [(growTableImpl_ok_spec commitOk t delta true _ h).1]

/-- Witness for C10: a grow past the type maximum returns -1; a successful
grow of the fresh table returns its old element count 0 as an I32. -/
theorem table_grow_intrinsic_spec_witness :
    (table_grow true tabAtMax none 3).1 = -1
    ∧ (table_grow true tabFresh none 2).1 = toI32 tabFresh.numElements :=
  ⟨(table_grow_intrinsic_spec true tabAtMax none 3).1 (by rfl),
   (table_grow_intrinsic_spec true tabFresh none 2).2.1 (by rfl)⟩

theorem setTableElementNonNull_preserves_I2 (t : Table) (i : Nat) (v : Object)
    (h : InvariantI2 t) : InvariantI2 (setTableElementNonNull t i v).2 := by
  by_cases h1 : t.numReservedElements ≤ i
  · unfold setTableElementNonNull
    rw [if_pos (by omega)]
    exact h
  · by_cases h2 : t.elements i = getOutOfBoundsElement
    · rw [setTableElementNonNull_dead_slot t i v (by omega) h2]
      exact h
    · rw [setTableElementNonNull_ok t i v (by omega) h2]
      intro j hj1 hj2
      have hji : j ≠ i := by
        intro e
        subst e
        exact h2 (h j hj1 hj2)
      show (if j = i then v else t.elements j) = getOutOfBoundsElement
      rw [if_neg hji]
      exact h j hj1 hj2

theorem setTableElement_dead_slot (t : Table) (i : Nat) (v : Option Object)
    (h1 : i < t.numReservedElements) (h2 : t.elements i = getOutOfBoundsElement) :
    setTableElement t i v = (Except.error (Exn.outOfBoundsTableAccess i), t) := by
  unfold setTableElement
  cases v with
  | none =>
    show (match setTableElementNonNull t i getUninitializedElement with
      | (Except.error e, t) => (Except.error e, t)
      | (Except.ok oldObject, t) =>
        (Except.ok (if oldObject = getUninitializedElement then none else some oldObject), t)) = _
    rw [setTableElementNonNull_dead_slot t i getUninitializedElement h1 h2]
  | some x =>
    show (match setTableElementNonNull t i x with
      | (Except.error e, t) => (Except.error e, t)
      | (Except.ok oldObject, t) =>
        (Except.ok (if oldObject = getUninitializedElement then none else some oldObject), t)) = _
    rw [setTableElementNonNull_dead_slot t i x h1 h2]

theorem setTableElement_state (t : Table) (i : Nat) (v : Option Object) :
    (setTableElement t i v).2
      = (setTableElementNonNull t i (match v with
          | none => getUninitializedElement
          | some x => x)).2 := by
  unfold setTableElement
  cases v with
  | none =>
    rcases hs : setTableElementNonNull t i getUninitializedElement with ⟨res, u⟩
    show (match setTableElementNonNull t i getUninitializedElement with
      | (Except.error e, t) => (Except.error e, t)
      | (Except.ok oldObject, t) =>
        (Except.ok (if oldObject = getUninitializedElement then none else some oldObject),
          t)).2 = (res, u).2
    rw [hs]
    cases res <;> rfl
  | some x =>
    rcases hs : setTableElementNonNull t i x with ⟨res, u⟩
    show (match setTableElementNonNull t i x with
      | (Except.error e, t) => (Except.error e, t)
      | (Except.ok oldObject, t) =>
        (Except.ok (if oldObject = getUninitializedElement then none else some oldObject),
          t)).2 = (res, u).2
    rw [hs]
    cases res <;> rfl

theorem setTableElement_preserves_I2 (t : Table) (i : Nat) (v : Option Object)
    (h : InvariantI2 t) : InvariantI2 (setTableElement t i v).2 := by
  rw [setTableElement_state]
  exact setTableElementNonNull_preserves_I2 t i _ h

theorem I2_of_setNonNull_eq (t : Table) (i : Nat) (v : Object)
    (res : Except Exn Object) (u : Table) (h : InvariantI2 t)
    (heq : setTableElementNonNull t i v = (res, u)) : InvariantI2 u := by
  have hp := setTableElementNonNull_preserves_I2 t i v h
  rw [heq] at hp
  exact hp

theorem I2_of_set_eq (t : Table) (i : Nat) (v : Option Object)
    (res : Except Exn (Option Object)) (u : Table) (h : InvariantI2 t)
    (heq : setTableElement t i v = (res, u)) : InvariantI2 u := by
  have hp := setTableElement_preserves_I2 t i v h
  rw [heq] at hp
  exact hp

theorem tableFillLoop_preserves_I2 (d : Nat) (v : Object) (n : Nat) :
    ∀ remaining t, InvariantI2 t → InvariantI2 (tableFillLoop d v n remaining t).2 := by
  intro remaining
  induction remaining with
  | zero => intro t h; exact h
  | succ r ih =>
    intro t h
    simp only [tableFillLoop]
    split
    next e u heq => exact I2_of_setNonNull_eq t _ v _ u h heq
    next o u heq => exact ih u (I2_of_setNonNull_eq t _ v _ u h heq)

theorem tableCopyDescLoop_preserves_I2 (d s : Nat) :
    ∀ remaining t, InvariantI2 t → InvariantI2 (tableCopyDescLoop d s remaining t).2 := by
  intro remaining
  induction remaining with
  | zero => intro t h; exact h
  | succ r ih =>
    intro t h
    simp only [tableCopyDescLoop]
    split
    next e heqg => exact h
    next object heqg =>
      split
      next e u heq => exact I2_of_setNonNull_eq t _ object _ u h heq
      next o u heq => exact ih u (I2_of_setNonNull_eq t _ object _ u h heq)

theorem tableCopyAscLoop_preserves_I2 (d s n : Nat) :
    ∀ remaining t, InvariantI2 t → InvariantI2 (tableCopyAscLoop d s n remaining t).2 := by
  intro remaining
  induction remaining with
  | zero => intro t h; exact h
  | succ r ih =>
    intro t h
    simp only [tableCopyAscLoop]
    split
    next e heqg => exact h
    next object heqg =>
      split
      next e u heq => exact I2_of_setNonNull_eq t _ object _ u h heq
      next o u heq => exact ih u (I2_of_setNonNull_eq t _ object _ u h heq)

theorem initElemSegmentLoop_preserves_I2 (fns : Nat → Object) (seg : List Elem)
    (idx d s n : Nat) :
    ∀ remaining t, InvariantI2 t →
      InvariantI2 (initElemSegmentLoop fns seg idx d s n remaining t).2 := by
  intro remaining
  induction remaining with
  | zero => intro t h; exact h
  | succ r ih =>
    intro t h
    simp only [initElemSegmentLoop]
    split
    · exact h
    · split
      next e u heq => exact I2_of_set_eq t _ _ _ u h heq
      next o u heq => exact ih u (I2_of_set_eq t _ _ _ u h heq)

theorem growTableImpl_preserves_I2 (commitOk : Bool) (t : Table) (n : Nat)
    (init : Bool) (fill : Object) (h : InvariantI2 t) :
    InvariantI2 (growTableImpl commitOk t n init fill).table := by
  cases hok : (growTableImpl commitOk t n init fill).ok with
  | false =>
    rw [growTableImpl_fail_eq commitOk t n init fill hok]
    exact h
  | true =>
    obtain ⟨hold, hnum, hresv, htype, hlow, hhigh, hfill, hmax⟩ :=
      growTableImpl_ok_spec commitOk t n init fill hok
    intro j hj1 hj2
    rw [hnum] at hj2
    rw [hresv] at hj1
    rw [hhigh j hj2]
    exact h j hj1 (by omega)

/-- C6: every table operation preserves invariant I2 (every slot at or beyond
the current element count within the reservation still decodes to the
out-of-bounds sentinel, i.e. keeps its zero raw word); and a set on such a
slot raises OutOfBoundsTableAccess before its compare-and-swap, leaving the
table -- in particular that slot -- unchanged, so no write can make an
out-of-current-bounds slot live. -/
theorem table_ops_preserve_sentinel_invariant :
    (∀ t i v, InvariantI2 t → InvariantI2 (setTableElement t i v).2)
    ∧ (∀ commitOk t n init fill, InvariantI2 t →
        InvariantI2 (growTableImpl commitOk t n init fill).table)
    ∧ (∀ t d v n, InvariantI2 t → InvariantI2 (table_fill t d v n).2)
    ∧ (∀ t d s n, InvariantI2 t → InvariantI2 (table_copy t d s n).2)
    ∧ (∀ fns seg idx t d s n, InvariantI2 t →
        InvariantI2 (initElemSegment fns seg idx t d s n).2)
    ∧ (∀ ty q, InvariantI2 (createTableImpl 64 ty q).1)
    ∧ (∀ t i v, InvariantI2 t → t.numElements ≤ i → i < t.numReservedElements →
        setTableElement t i v = (Except.error (Exn.outOfBoundsTableAccess i), t)) := by
  refine ⟨setTableElement_preserves_I2, growTableImpl_preserves_I2, ?_, ?_, ?_, ?_, ?_⟩
  · intro t d v n h
    unfold table_fill
    cases v with
    | none => exact tableFillLoop_preserves_I2 d getUninitializedElement n n t h
    | some x => exact tableFillLoop_preserves_I2 d x n n t h
  · intro t d s n h
    unfold table_copy
    by_cases hc : s < d
    · rw [if_pos hc]
      exact tableCopyDescLoop_preserves_I2 d s n t h
    · rw [if_neg hc]
      exact tableCopyAscLoop_preserves_I2 d s n n t h
  · intro fns seg idx t d s n h
    exact initElemSegmentLoop_preserves_I2 fns seg idx d s n n t h
  · intro ty q j hj1 hj2
    rfl
  · intro t i v hI2 hle hlt
    exact setTableElement_dead_slot t i v hlt (hI2 i hlt hle)

/-- Witness for C6: on the sample table (size 2, reservation 4), a set of a
live slot preserves I2, and a set of dead slot 2 raises OutOfBoundsTableAccess
and returns the table unchanged. -/
theorem table_ops_preserve_sentinel_invariant_witness :
    InvariantI2 (setTableElement tabSmall 1 (some (Object.func 9))).2
    ∧ setTableElement tabSmall 2 (some (Object.func 9))
        = (Except.error (Exn.outOfBoundsTableAccess 2), tabSmall) :=
  ⟨table_ops_preserve_sentinel_invariant.1 tabSmall 1 (some (Object.func 9))
      (by unfold InvariantI2; decide),
   table_ops_preserve_sentinel_invariant.2.2.2.2.2.2 tabSmall 2 (some (Object.func 9))
      (by unfold InvariantI2; decide) (by decide) (by decide)⟩

theorem tableCopyDescLoop_spec (t0 : Table) (d s n : Nat) (hlt : s < d)
    (hn : d + n ≤ t0.numElements) (hres : t0.numElements ≤ t0.numReservedElements)
    (hI1 : InvariantI1 t0) :
    ∀ remaining t, remaining ≤ n →
      t.numElements = t0.numElements →
      t.numReservedElements = t0.numReservedElements →
      (∀ q, q < d + remaining ∨ d + n ≤ q → t.elements q = t0.elements q) →
      (∀ j, remaining ≤ j → j < n → t.elements (d + j) = t0.elements (s + j)) →
      ∃ u, tableCopyDescLoop d s remaining t = (Except.ok (), u)
        ∧ u.numElements = t0.numElements
        ∧ u.numReservedElements = t0.numReservedElements
        ∧ (∀ q, q < d ∨ d + n ≤ q → u.elements q = t0.elements q)
        ∧ (∀ j, j < n → u.elements (d + j) = t0.elements (s + j)) := by
  intro remaining
  induction remaining with
  | zero =>
    intro t _ h1 h2 h3 h4
    exact ⟨t, rfl, h1, h2, fun q hq => h3 q (by omega),
      fun j hj => h4 j (by omega) hj⟩
  | succ r ih =>
    intro t hrn h1 h2 h3 h4
    have hsr : t.elements (s + r) = t0.elements (s + r) := h3 (s + r) (by omega)
    have hread : getTableElementNonNull t (s + r) = Except.ok (t0.elements (s + r)) := by
      have hb : s + r < t.numReservedElements := by omega
      have hnoob : t.elements (s + r) ≠ getOutOfBoundsElement := by
        rw [hsr]
        exact hI1 (s + r) (by omega)
      rw [getTableElementNonNull_ok t (s + r) hb hnoob, hsr]
    have hdr : t.elements (d + r) = t0.elements (d + r) := h3 (d + r) (by omega)
    have hwb : d + r < t.numReservedElements := by omega
    have hwnoob : t.elements (d + r) ≠ getOutOfBoundsElement := by
      rw [hdr]
      exact hI1 (d + r) (by omega)
    have hwrite := setTableElementNonNull_ok t (d + r) (t0.elements (s + r)) hwb hwnoob
    have hinv3 : ∀ q, q < d + r ∨ d + n ≤ q →
        (if q = d + r then t0.elements (s + r) else t.elements q) = t0.elements q := by
      intro q hq
      rw [if_neg (by omega)]
      exact h3 q (by omega)
    have hinv4 : ∀ j, r ≤ j → j < n →
        (if d + j = d + r then t0.elements (s + r) else t.elements (d + j))
          = t0.elements (s + j) := by
      intro j hj1 hj2
      by_cases hjr : j = r
      · subst hjr
        rw [if_pos rfl]
      · rw [if_neg (by omega)]
        exact h4 j (by omega) hj2
    have hstep := ih
      { t with elements := fun k => if k = d + r then t0.elements (s + r) else t.elements k }
      (by omega) h1 h2 hinv3 hinv4
    simp only [tableCopyDescLoop, hread, hwrite]
    exact hstep

/-- C5: copy on an aliased table iterates element steps in descending index
order when sourceOffset < destOffset (so every overlapped source slot is read
before it is overwritten: the destination range ends up an exact copy of the
original source range) and ascending order otherwise; concretely, on a table
of size 4 holding [A,B,C,D], copy(dest=1, src=0, n=3) yields [A,A,B,C], while
copy(dest=0, src=1, n=3) takes the ascending branch and yields [B,C,D,D]. -/
theorem table_copy_direction_spec :
    (∀ t d s n, s < d → d + n ≤ t.numElements →
        t.numElements ≤ t.numReservedElements → InvariantI1 t →
        ∃ u, table_copy t d s n = (Except.ok (), u)
          ∧ (∀ j, j < n → u.elements (d + j) = t.elements (s + j))
          ∧ (∀ q, q < d ∨ d + n ≤ q → u.elements q = t.elements q))
    ∧ ((table_copy tabC5 1 0 3).2.elements 0 = Object.func 0
        ∧ (table_copy tabC5 1 0 3).2.elements 1 = Object.func 0
        ∧ (table_copy tabC5 1 0 3).2.elements 2 = Object.func 1
        ∧ (table_copy tabC5 1 0 3).2.elements 3 = Object.func 2)
    ∧ ((table_copy tabC5 0 1 3).2.elements 0 = Object.func 1
        ∧ (table_copy tabC5 0 1 3).2.elements 1 = Object.func 2
        ∧ (table_copy tabC5 0 1 3).2.elements 2 = Object.func 3
        ∧ (table_copy tabC5 0 1 3).2.elements 3 = Object.func 3) := by
  refine ⟨?_, ⟨by decide, by decide, by decide, by decide⟩,
    ⟨by decide, by decide, by decide, by decide⟩⟩
  intro t d s n hlt hn hres hI1
  unfold table_copy
  rw [if_pos hlt]
  obtain ⟨u, h0, h1, h2, h3, h4⟩ :=
    tableCopyDescLoop_spec t d s n hlt hn hres hI1 n t le_rfl rfl rfl
      (fun q _ => rfl) (fun j hj1 hj2 => absurd hj2 (Nat.not_lt.mpr hj1))
  exact ⟨u, h0, h4, h3⟩

/-- Witness for C5: the overlapping descending copy on the concrete [A,B,C,D]
table completes without an exception. -/
theorem table_copy_direction_spec_witness :
    (table_copy tabC5 1 0 3).1 = Except.ok () := by
  obtain ⟨u, h, -, -⟩ := table_copy_direction_spec.1 tabC5 1 0 3 (by decide)
    (by decide) (by decide) (by unfold InvariantI1; decide)
  rw [h]

theorem stored_elem_value (fns : Nat → Object) (e : Elem) :
    (match (match e with
      | Elem.ref_null => (none : Option Object)
      | Elem.ref_func j => some (fns j)) with
      | none => getUninitializedElement
      | some x => x) = elemObjectValue fns e := by
  cases e <;> rfl

theorem initElemSegmentLoop_oob_spec (fns : Nat → Object) (seg : List Elem)
    (idx : Nat) (t0 : Table) (d s n : Nat)
    (hnowrap_s : s + n < uptrSize) (hnowrap_d : d + n < uptrSize)
    (hi0 : seg.length - s < n)
    (hwr : d + (seg.length - s) ≤ t0.numElements)
    (hres : t0.numElements ≤ t0.numReservedElements)
    (hI1 : InvariantI1 t0) :
    ∀ remaining t, remaining ≤ n → n - remaining ≤ seg.length - s →
      t.numElements = t0.numElements →
      t.numReservedElements = t0.numReservedElements →
      (∀ q, q < d ∨ d + (n - remaining) ≤ q → t.elements q = t0.elements q) →
      (∀ i, i < n - remaining →
          t.elements (d + i) = elemObjectValue fns (seg.getD (s + i) Elem.ref_null)) →
      ∃ u, initElemSegmentLoop fns seg idx d s n remaining t
            = (Except.error (Exn.outOfBoundsElemSegmentAccess idx
                (s + (seg.length - s))), u)
        ∧ u.numElements = t0.numElements
        ∧ u.numReservedElements = t0.numReservedElements
        ∧ (∀ i, i < seg.length - s →
            u.elements (d + i) = elemObjectValue fns (seg.getD (s + i) Elem.ref_null))
        ∧ (∀ q, q < d ∨ d + (seg.length - s) ≤ q → u.elements q = t0.elements q) := by
  intro remaining
  induction remaining with
  | zero => intro t h0 h0' h1 h2 h3 h4; omega
  | succ r ih =>
    intro t hle hdone h1 h2 h3 h4
    have hmods : (s + (n - (r + 1))) % uptrSize = s + (n - (r + 1)) :=
      Nat.mod_eq_of_lt (lt_of_le_of_lt (by omega) hnowrap_s)
    by_cases hidx : n - (r + 1) = seg.length - s
    · simp only [initElemSegmentLoop, Nat.succ_eq_add_one]
      rw [hmods]
      rw [if_pos (Or.inl (by omega))]
      exact ⟨t, by rw [hidx], h1, h2,
        fun i hi => h4 i (by omega), fun q hq => h3 q (by omega)⟩
    · have hmodd : (d + (n - (r + 1))) % uptrSize = d + (n - (r + 1)) :=
        Nat.mod_eq_of_lt (lt_of_le_of_lt (by omega) hnowrap_d)
      have hidxlt : n - (r + 1) < seg.length - s := by omega
      have hb : d + (n - (r + 1)) < t.numReservedElements := by omega
      have htq : t.elements (d + (n - (r + 1))) = t0.elements (d + (n - (r + 1))) :=
        h3 _ (Or.inr (by omega))
      have hnoob : t.elements (d + (n - (r + 1))) ≠ getOutOfBoundsElement := by
        rw [htq]
        exact hI1 _ (by omega)
      have hset := setTableElement_ok t (d + (n - (r + 1)))
        (match seg.getD (s + (n - (r + 1))) Elem.ref_null with
          | Elem.ref_null => none
          | Elem.ref_func fidx => some (fns fidx)) hb hnoob
      have hinv3 : ∀ q, q < d ∨ d + (n - r) ≤ q →
          (if q = d + (n - (r + 1)) then
            (match (match seg.getD (s + (n - (r + 1))) Elem.ref_null with
              | Elem.ref_null => (none : Option Object)
              | Elem.ref_func fidx => some (fns fidx)) with
              | none => getUninitializedElement
              | some x => x)
          else t.elements q) = t0.elements q := by
        intro q hq
        rw [if_neg (by omega)]
        exact h3 q (by omega)
      have hinv4 : ∀ i, i < n - r →
          (if d + i = d + (n - (r + 1)) then
            (match (match seg.getD (s + (n - (r + 1))) Elem.ref_null with
              | Elem.ref_null => (none : Option Object)
              | Elem.ref_func fidx => some (fns fidx)) with
              | none => getUninitializedElement
              | some x => x)
          else t.elements (d + i))
            = elemObjectValue fns (seg.getD (s + i) Elem.ref_null) := by
        intro i hi
        by_cases hieq : i = n - (r + 1)
        · subst hieq
          rw [if_pos rfl]
          exact stored_elem_value fns _
        · rw [if_neg (by omega)]
          exact h4 i (by omega)
      have hstep := ih
        { t with elements := fun k =>
            if k = d + (n - (r + 1)) then
              (match (match seg.getD (s + (n - (r + 1))) Elem.ref_null with
                | Elem.ref_null => (none : Option Object)
                | Elem.ref_func fidx => some (fns fidx)) with
                | none => getUninitializedElement
                | some x => x)
            else t.elements k }
        (by omega) (by omega) h1 h2 hinv3 hinv4
      simp only [initElemSegmentLoop, Nat.succ_eq_add_one]
      rw [hmods, hmodd, if_neg (by omega)]
      simp only [hset]
      exact hstep

/-- Counterexample to C4 as stated: on a table holding [func 0, func 1] and a
segment of length 2, table.init(dest=0, src=1, n=2) raises
OutOfBoundsElemSegmentAccess at source index 2, but slot 0 of the destination
table HAS been modified (it now holds the decoded entry seg[1]), contradicting
the claim that no slot is modified. -/
theorem initElemSegment_modifies_slot_before_raising :
    (initElemSegment (fun j => Object.func j) [Elem.ref_func 10, Elem.ref_func 11] 7
        tabSmall 0 1 2).1
      = Except.error (Exn.outOfBoundsElemSegmentAccess 7 2)
    ∧ ¬((initElemSegment (fun j => Object.func j) [Elem.ref_func 10, Elem.ref_func 11] 7
        tabSmall 0 1 2).2.elements 0 = tabSmall.elements 0) :=
  ⟨by rfl, by decide⟩

/-- C4 amended: when a table.init source range runs past the segment (some i
in [0,n) has src+i beyond the segment length, with no index wraparound), the
operation raises OutOfBoundsElemSegmentAccess at the first violating source
index; the destination slots for the iterations before the violation have been
written with the decoded segment entries, and every other slot is unchanged --
so when src itself is already out of range, no slot is modified. -/
theorem initElemSegment_oob_source_spec (fns : Nat → Object) (seg : List Elem)
    (idx : Nat) (t : Table) (d s n : Nat)
    (hnowrap_s : s + n < uptrSize) (hnowrap_d : d + n < uptrSize)
    (hviol : ∃ i, i < n ∧ seg.length ≤ s + i)
    (hwr : d + (seg.length - s) ≤ t.numElements)
    (hres : t.numElements ≤ t.numReservedElements)
    (hI1 : InvariantI1 t) :
    ∃ u, initElemSegment fns seg idx t d s n
          = (Except.error (Exn.outOfBoundsElemSegmentAccess idx
              (s + (seg.length - s))), u)
      ∧ u.numElements = t.numElements
      ∧ (∀ i, i < seg.length - s →
          u.elements (d + i) = elemObjectValue fns (seg.getD (s + i) Elem.ref_null))
      ∧ (∀ q, q < d ∨ d + (seg.length - s) ≤ q → u.elements q = t.elements q) := by
  have hi0 : seg.length - s < n := by
    obtain ⟨i, hi1, hi2⟩ := hviol
    omega
  obtain ⟨u, h0, h1, h2, h3, h4⟩ := initElemSegmentLoop_oob_spec fns seg idx t d s n
    hnowrap_s hnowrap_d hi0 hwr hres hI1 n t (le_refl n) (by omega) rfl rfl
    (fun q hq => rfl) (fun i hi => absurd hi (by omega))
  exact ⟨u, h0, h1, h3, h4⟩

/-- Witness for the amended C4: the concrete scenario (segment length 2,
dest=0, src=1, n=2) raises OutOfBoundsElemSegmentAccess at source index 2. -/
theorem initElemSegment_oob_source_spec_witness :
    (initElemSegment (fun j => Object.func j) [Elem.ref_func 10, Elem.ref_func 11] 7
        tabSmall 0 1 2).1 = Except.error (Exn.outOfBoundsElemSegmentAccess 7 2) := by
  obtain ⟨u, h, -, -, -⟩ := initElemSegment_oob_source_spec (fun j => Object.func j)
    [Elem.ref_func 10, Elem.ref_func 11] 7 tabSmall 0 1 2 (by decide) (by decide)
    ⟨1, by decide, by decide⟩ (by decide) (by decide) (by unfold InvariantI1; decide)
  rw [h]
  rfl

theorem setTableElementNonNull_reserved (t : Table) (i : Nat) (v : Object) :
    (setTableElementNonNull t i v).2.numReservedElements = t.numReservedElements := by
  by_cases h1 : t.numReservedElements ≤ i
  · unfold setTableElementNonNull
    rw [if_pos (by omega)]
  · by_cases h2 : t.elements i = getOutOfBoundsElement
    · rw [setTableElementNonNull_dead_slot t i v (by omega) h2]
    · rw [setTableElementNonNull_ok t i v (by omega) h2]

theorem growTableImpl_reserved (commitOk : Bool) (t : Table) (n : Nat)
    (init : Bool) (fill : Object) :
    (growTableImpl commitOk t n init fill).table.numReservedElements
      = t.numReservedElements := by
  cases hok : (growTableImpl commitOk t n init fill).ok with
  | false => rw [growTableImpl_fail_eq commitOk t n init fill hok]
  | true => exact (growTableImpl_ok_spec commitOk t n init fill hok).2.2.1

/-- C8 (the code computes the reservation size as Uptr(1) << 32 on every host):
on a 64-bit host the reservation holds 2^32 element slots (2^35 bytes)
regardless of the declared type, the allocation adds exactly numGuardPages = 1
trailing guard page beyond the data pages, and no table operation changes the
reserved element count after creation; but on a 32-bit host the same
expression, read with wraparound semantics, yields 0 reserved elements -- not
the 4 Mi (2^22) elements the claim and the source comment state. -/
theorem reservation_layout_spec :
    (∀ ty q, (createTableImpl 64 ty q).1.numReservedElements = 2 ^ 32)
    ∧ (∀ ty q, (createTableImpl 64 ty q).1.numReservedBytes = 2 ^ 35)
    ∧ (∀ ty q, (createTableImpl 64 ty q).2
        = (createTableImpl 64 ty q).1.numReservedBytes >>> pageSizeLog2 + numGuardPages)
    ∧ numGuardPages = 1
    ∧ (∀ ty q, (createTableImpl 32 ty q).1.numReservedElements = 0)
    ∧ (∀ ty q, (createTableImpl 32 ty q).1.numReservedElements ≠ 2 ^ 22)
    ∧ (∀ t i v, ((setTableElement t i v).2).numReservedElements = t.numReservedElements)
    ∧ (∀ commitOk t n init fill,
        ((growTableImpl commitOk t n init fill).table).numReservedElements
          = t.numReservedElements) := by
  refine ⟨fun ty q => rfl, fun ty q => rfl, fun ty q => rfl, rfl,
    fun ty q => rfl, fun ty q => by show (0 : Nat) ≠ 2 ^ 22; decide, ?_,
    growTableImpl_reserved⟩
  intro t i v
  rw [setTableElement_state]
  exact setTableElementNonNull_reserved t i _

/-- Counterexample to C9 as stated: a guard-page address is not resolved.  For
a table whose reservation starts at 4096 with 2^35 reserved bytes, the first
byte of the trailing guard page (4096 + 2^35) lies inside the table's
allocated virtual reservation, yet resolve returns failure, because the scan
tests address < base + numReservedBytes, which excludes the guard page. -/
theorem isAddressOwnedByTable_guard_page_cex :
    isAddressOwnedByTable [{ base := 4096, numReservedBytes := 2 ^ 35 }]
      (4096 + 2 ^ 35) = none := by
  decide

/-- C9 amended: resolve returns the owning table together with the element
index (address - base) / element_size exactly for addresses inside a live
table's element reservation [base, base + numReservedBytes) -- which excludes
the trailing guard page -- and returns failure for an address inside no live
table's element reservation. -/
theorem isAddressOwnedByTable_spec (tables : List TableRecord) (address : Nat) :
    ((∀ tr, tr ∈ tables →
        ¬(tr.base ≤ address ∧ address < tr.base + tr.numReservedBytes)) →
      isAddressOwnedByTable tables address = none)
    ∧ (∀ tr i, isAddressOwnedByTable tables address = some (tr, i) →
        tr ∈ tables ∧ tr.base ≤ address ∧ address < tr.base + tr.numReservedBytes
          ∧ i = (address - tr.base) / sizeofElement)
    ∧ ((∃ tr, tr ∈ tables ∧ tr.base ≤ address
          ∧ address < tr.base + tr.numReservedBytes) →
        ∃ tr i, isAddressOwnedByTable tables address = some (tr, i)) := by
  induction tables with
  | nil =>
    refine ⟨fun _ => rfl, ?_, ?_⟩
    · intro tr i h
      simp [isAddressOwnedByTable] at h
    · rintro ⟨tr, htr, -⟩
      cases htr
  | cons hd tl ih =>
    obtain ⟨ih1, ih2, ih3⟩ := ih
    by_cases hc : hd.base ≤ address ∧ address < hd.base + hd.numReservedBytes
    · refine ⟨?_, ?_, ?_⟩
      · intro hall
        exact absurd hc (hall hd (List.mem_cons_self hd tl))
      · intro tr i h
        unfold isAddressOwnedByTable at h
        rw [if_pos hc] at h
        simp only [Option.some.injEq, Prod.mk.injEq] at h
        obtain ⟨h1, h2⟩ := h
        subst h1
        subst h2
        exact ⟨List.mem_cons_self hd tl, hc.1, hc.2, rfl⟩
      · intro _
        refine ⟨hd, (address - hd.base) / sizeofElement, ?_⟩
        unfold isAddressOwnedByTable
        rw [if_pos hc]
    · refine ⟨?_, ?_, ?_⟩
      · intro hall
        unfold isAddressOwnedByTable
        rw [if_neg hc]
        exact ih1 (fun tr htr => hall tr (List.mem_cons_of_mem hd htr))
      · intro tr i h
        unfold isAddressOwnedByTable at h
        rw [if_neg hc] at h
        obtain ⟨hmem, hb1, hb2, hi⟩ := ih2 tr i h
        exact ⟨List.mem_cons_of_mem hd hmem, hb1, hb2, hi⟩
      · rintro ⟨tr, htr, hb1, hb2⟩
        unfold isAddressOwnedByTable
        rw [if_neg hc]
        apply ih3
        rcases List.mem_cons.mp htr with h | h
        · subst h
          exact absurd ⟨hb1, hb2⟩ hc
        · exact ⟨tr, h, hb1, hb2⟩

/-- Witness for the amended C9: an address one byte below a table's base
resolves to failure, and an address 8 bytes into the element reservation
resolves to the table with element index 1. -/
theorem isAddressOwnedByTable_spec_witness :
    isAddressOwnedByTable [{ base := 4096, numReservedBytes := 2 ^ 35 }] 4095 = none
    ∧ (({ base := 4096, numReservedBytes := 2 ^ 35 } : TableRecord)
          ∈ [({ base := 4096, numReservedBytes := 2 ^ 35 } : TableRecord)]
        ∧ (4096 : Nat) ≤ 4104
        ∧ (4104 : Nat) < 4096 + 2 ^ 35
        ∧ (1 : Nat) = (4104 - 4096) / sizeofElement) :=
  ⟨(isAddressOwnedByTable_spec [{ base := 4096, numReservedBytes := 2 ^ 35 }] 4095).1
      (by decide),
   (isAddressOwnedByTable_spec [{ base := 4096, numReservedBytes := 2 ^ 35 }] 4104).2.1
      { base := 4096, numReservedBytes := 2 ^ 35 } 1 (by decide)⟩
